import Mathlib

/-!
Verification of the Auditing_Package reconciliation and JET engine.

The Python source (logic_comparison.py, logic_jet.py, journal_entry_test.py,
difference.py) is shallowly embedded below: pandas DataFrames become lists of
typed row structures, float amounts become exact rationals `ℚ`, dates become
epoch-day integers `ℤ` with `Option` for NaT, and missing optional columns are
tracked by explicit presence flags on the table structure.
-/

namespace Auditing

/-! ## Column Resolver

Embeds `_find_column` (identical in logic_comparison.py:9-19 and
logic_jet.py:9-19):

    def normalize(text): return re.sub(r'[\s._-]', '', text).upper()
    df_cols_map = {normalize(col): col for col in df_columns}
    for name in possible_names:
        if normalize(name) in df_cols_map: return df_cols_map[normalize(name)]
    return None
-/

/-- Characters removed by the `re.sub(r'[\s._-]', '', text)` step.
`Char.isWhitespace` covers the whitespace class for the header strings in
scope. -/
def isStripChar (c : Char) : Bool :=
  c.isWhitespace || c == '.' || c == '_' || c == '-'

/-- `normalize`: drop whitespace and `.`/`_`/`-`, then uppercase
(Python `.upper()`; on the Korean/ASCII headers in scope `Char.toUpper`
agrees with it). -/
def normalize (s : String) : String :=
  ((s.toList.filter (fun c => !isStripChar c)).map Char.toUpper).asString

/-- Lookup in `df_cols_map`.  The dict comprehension
`{normalize(col): col for col in df_columns}` lets later columns overwrite
earlier ones, so a key maps to the LAST column with that normalized form:
searching the reversed list gives exactly that binding. -/
def lookupNormalized (cols : List String) (key : String) : Option String :=
  cols.reverse.find? (fun c => normalize c == key)

/-- `_find_column(df_columns, possible_names)`: first alias (in alias-list
order) whose normalized form is a key of the map wins. -/
def find_column (cols : List String) : List String → Option String
  | [] => none
  | n :: ns =>
    match lookupNormalized cols (normalize n) with
    | some c => some c
    | none => find_column cols ns

/-- Whether some header of `cols` normalizes to the same key as alias `n`. -/
def aliasMatches (cols : List String) (n : String) : Bool :=
  cols.any (fun c => normalize c == normalize n)

theorem lookupNormalized_isSome (cols : List String) (n : String) :
    (lookupNormalized cols (normalize n)).isSome = aliasMatches cols n := by
  rw [Bool.eq_iff_iff]
  simp only [lookupNormalized, aliasMatches, List.find?_isSome, List.any_eq_true,
    List.mem_reverse]

theorem find_column_eq (cols : List String) (names : List String) :
    find_column cols names =
      match names.find? (aliasMatches cols) with
      | some n => lookupNormalized cols (normalize n)
      | none => none := by
  induction names with
  | nil => rfl
  | cons n ns ih =>
    by_cases h : aliasMatches cols n = true
    · have hsome : (lookupNormalized cols (normalize n)).isSome = true := by
        rw [lookupNormalized_isSome, h]
      rcases Option.isSome_iff_exists.mp hsome with ⟨c, hc⟩
      simp [find_column, List.find?_cons, h, hc]
    · have hnone : lookupNormalized cols (normalize n) = none := by
        have := lookupNormalized_isSome cols n
        rw [eq_false_of_ne_true h] at this
        exact Option.not_isSome_iff_eq_none.mp (by simp [this])
      simp [find_column, List.find?_cons, h, hnone, ih]

theorem lookupNormalized_mem_and_key (cols : List String) (key c : String)
    (h : lookupNormalized cols key = some c) :
    c ∈ cols ∧ normalize c = key := by
  have hmem := List.mem_of_find?_eq_some h
  have hkey := List.find?_some h
  exact ⟨List.mem_reverse.mp hmem, by simpa using hkey⟩

theorem find_column_none_iff (cols : List String) (names : List String) :
    find_column cols names = none ↔
      ∀ n ∈ names, ∀ c ∈ cols, normalize c ≠ normalize n := by
  rw [find_column_eq]
  constructor
  · intro h n hn c hc hkey
    cases hfind : names.find? (aliasMatches cols) with
    | none =>
      have := List.find?_eq_none.mp hfind n hn
      have : aliasMatches cols n = true := by
        simp only [aliasMatches, List.any_eq_true]
        exact ⟨c, hc, by simp [hkey]⟩
      simp_all
    | some m =>
      rw [hfind] at h
      have hm : aliasMatches cols m = true := List.find?_some hfind
      have : (lookupNormalized cols (normalize m)).isSome = true := by
        rw [lookupNormalized_isSome, hm]
      rcases Option.isSome_iff_exists.mp this with ⟨c', hc'⟩
      simp [hc'] at h
  · intro h
    cases hfind : names.find? (aliasMatches cols) with
    | none => simp
    | some m =>
      have hm : aliasMatches cols m = true := List.find?_some hfind
      have hmem : m ∈ names := List.mem_of_find?_eq_some hfind
      simp only [aliasMatches, List.any_eq_true] at hm
      rcases hm with ⟨c, hc, hkey⟩
      exact absurd (by simpa using hkey) (h m hmem c hc)

theorem find?_split {α : Type} (p : α → Bool) (l : List α) (c : α)
    (h : l.find? p = some c) :
    ∃ l1 l2, l = l1 ++ c :: l2 ∧ ∀ x ∈ l1, p x = false := by
  induction l with
  | nil => simp at h
  | cons a t ih =>
    by_cases ha : p a = true
    · rw [List.find?_cons_of_pos _ ha] at h
      obtain rfl : a = c := by injection h
      exact ⟨[], t, rfl, by simp⟩
    · rw [List.find?_cons_of_neg _ (by simpa using ha)] at h
      obtain ⟨l1, l2, rfl, hl1⟩ := ih h
      refine ⟨a :: l1, l2, rfl, ?_⟩
      intro x hx
      rcases List.mem_cons.mp hx with rfl | hx
      · simpa using ha
      · exact hl1 x hx

theorem lookupNormalized_last (cols : List String) (key c : String)
    (h : lookupNormalized cols key = some c) :
    ∃ l1 l2, cols = l1 ++ c :: l2 ∧ ∀ x ∈ l2, normalize x ≠ key := by
  obtain ⟨r1, r2, hrev, hr1⟩ := find?_split _ _ _ h
  have hcols : cols = r2.reverse ++ c :: r1.reverse := by
    have := congrArg List.reverse hrev
    simpa [List.reverse_append] using this
  refine ⟨r2.reverse, r1.reverse, hcols, ?_⟩
  intro x hx hkey
  have := hr1 x (by simpa using hx)
  simp [hkey] at this

/-- C4: `_find_column` returns the first alias in alias-list order whose
normalized form (uppercased, whitespace and `.`/`_`/`-` removed) equals the
normalized form of some header, returning that header; if no alias matches it
returns `none` (it is a total function, so it never raises).  In particular
the headers `"차변 잔액"`, `" 차변잔액 "` and `"DR_BAL"` all resolve given an
alias list containing their normalized forms. -/
theorem c4_column_resolver :
    (∀ cols names, find_column cols names = none ↔
        ∀ n ∈ names, ∀ c ∈ cols, normalize c ≠ normalize n) ∧
    (∀ cols names c, find_column cols names = some c →
        c ∈ cols ∧ ∃ n, names.find? (aliasMatches cols) = some n ∧
          n ∈ names ∧ normalize c = normalize n) ∧
    (find_column ["차변 잔액"] ["차변잔액", "DRBAL"] = some "차변 잔액" ∧
     find_column [" 차변잔액 "] ["차변잔액", "DRBAL"] = some " 차변잔액 " ∧
     find_column ["DR_BAL"] ["차변잔액", "DRBAL"] = some "DR_BAL") := by
  refine ⟨find_column_none_iff, ?_, by decide, by decide, by decide⟩
  intro cols names c h
  rw [find_column_eq] at h
  cases hfind : names.find? (aliasMatches cols) with
  | none => rw [hfind] at h; simp at h
  | some n =>
    rw [hfind] at h
    obtain ⟨hmem, hkey⟩ := lookupNormalized_mem_and_key cols (normalize n) c h
    exact ⟨hmem, n, rfl, List.mem_of_find?_eq_some hfind, hkey⟩

theorem c4_column_resolver_witness : "DR_BAL" ∈ ["계정코드", "DR_BAL"] :=
  (c4_column_resolver.2.1 ["계정코드", "DR_BAL"] ["차변잔액", "DRBAL"] "DR_BAL"
    (by decide)).1

/-- C10: when two or more distinct headers normalize to the same key, the
resolver returns the header occurring latest in the table's column order,
because the dict comprehension building the normalized-key map overwrites
earlier entries. -/
theorem c10_last_collision_wins :
    (∀ cols names c, find_column cols names = some c →
        ∃ l1 l2, cols = l1 ++ c :: l2 ∧ ∀ x ∈ l2, normalize x ≠ normalize c) ∧
    find_column ["차변 잔액", "차변잔액"] ["차변잔액"] = some "차변잔액" ∧
    find_column ["차변잔액", "차변 잔액"] ["차변잔액"] = some "차변 잔액" := by
  refine ⟨?_, by decide, by decide⟩
  intro cols names c h
  rw [find_column_eq] at h
  cases hfind : names.find? (aliasMatches cols) with
  | none => rw [hfind] at h; simp at h
  | some n =>
    rw [hfind] at h
    obtain ⟨_, hkey⟩ := lookupNormalized_mem_and_key cols (normalize n) c h
    obtain ⟨l1, l2, hcols, hlast⟩ := lookupNormalized_last cols (normalize n) c h
    exact ⟨l1, l2, hcols, fun x hx => hkey ▸ hlast x hx⟩

theorem c10_last_collision_wins_witness :
    ∃ l1 l2, ["차변 잔액", "차변잔액"] = l1 ++ "차변잔액" :: l2 ∧
      ∀ x ∈ l2, normalize x ≠ normalize "차변잔액" :=
  c10_last_collision_wins.1 ["차변 잔액", "차변잔액"] ["차변잔액"] "차변잔액"
    (by decide)

/-! ## Roll-forward reconciler

Embeds `perform_roll_forward_test` (logic_comparison.py:51-134).  Inputs are
the already-loaded, column-resolved tables: the GL with its standardized
`계정코드`/`차변금액`/`대변금액` (and `계정과목`) columns, and each TB reduced by
`process_tb` to `계정코드`/`<prefix>계정과목`/`차변`/`대변` with numeric amounts
(`_to_numeric_safe`; floats modelled exactly as `ℚ`). -/

/-- One GL posting line after `load_gl_for_jet` standardization. -/
structure GLRow where
  code : String
  name : String
  dr : ℚ
  cr : ℚ
  deriving DecidableEq

/-- One trial-balance line after `process_tb` column resolution. -/
structure TBRow where
  code : String
  name : String
  dr : ℚ
  cr : ℚ
  deriving DecidableEq

/-- `<prefix>잔액 = <prefix>차변 - <prefix>대변` (logic_comparison.py:88). -/
def tb_balance (r : TBRow) : ℚ := r.dr - r.cr

/-- drop_duplicates keeping the first occurrence, as in
`pd.concat([...]).drop_duplicates(...)`. -/
def dedupFirst : List String → List String
  | [] => []
  | c :: cs => c :: (dedupFirst cs).filter (fun x => x ≠ c)

theorem mem_dedupFirst (l : List String) (x : String) :
    x ∈ dedupFirst l ↔ x ∈ l := by
  induction l with
  | nil => simp [dedupFirst]
  | cons a t ih =>
    by_cases hx : x = a
    · subst hx; simp [dedupFirst]
    · simp [dedupFirst, List.mem_filter, hx, ih]

theorem nodup_dedupFirst (l : List String) : (dedupFirst l).Nodup := by
  induction l with
  | nil => simp [dedupFirst]
  | cons a t ih =>
    refine List.nodup_cons.mpr ⟨?_, List.Nodup.filter _ ih⟩
    intro hmem
    have := (List.mem_filter.mp hmem).2
    simp at this

/-- The distinct GL account codes (`gl_df.groupby('계정코드')` keys; pandas
returns them sorted, an ordering immaterial to the membership and count
properties proved below). -/
def gl_codes (gl : List GLRow) : List String := dedupFirst (gl.map (·.code))

/-- `당기차변` for one account: sum of GL debit amounts of that code. -/
def glSumDr (gl : List GLRow) (c : String) : ℚ :=
  (((gl.filter (fun r => r.code == c)).map (·.dr)).sum)

/-- `당기대변` for one account: sum of GL credit amounts of that code. -/
def glSumCr (gl : List GLRow) (c : String) : ℚ :=
  (((gl.filter (fun r => r.code == c)).map (·.cr)).sum)

/-- `당기증감 = 당기차변 - 당기대변` (logic_comparison.py:68); an account absent
from the GL gets NaN from the left merge and then `fillna(0)`, which coincides
with the empty sum here. -/
def glMovement (gl : List GLRow) (c : String) : ℚ := glSumDr gl c - glSumCr gl c

/-- `all_codes`: concat of GL summary keys, prior-TB codes and current-TB
codes, duplicates dropped keeping the first occurrence
(logic_comparison.py:96-101). -/
def all_codes (gl : List GLRow) (pre cur : List TBRow) : List String :=
  dedupFirst (gl_codes gl ++ pre.map (·.code) ++ cur.map (·.code))

/-- `name_map`: current-TB names concatenated before prior-TB names,
`drop_duplicates` keeping the first, then left-merged onto `all_codes`
(logic_comparison.py:103-108).  An account named by neither TB gets NaN,
modelled as `none`.  The GL name column is not consulted. -/
def name_for (pre cur : List TBRow) (c : String) : Option String :=
  match cur.find? (fun r => r.code == c) with
  | some r => some r.name
  | none =>
    match pre.find? (fun r => r.code == c) with
    | some r => some r.name
    | none => none

/-- The rows of one TB matching a code, for the left merge: pandas emits one
output row per matching right-hand row, or a single all-NaN right side when
none matches. -/
def matchesOrNone (tb : List TBRow) (c : String) : List (Option TBRow) :=
  match tb.filter (fun r => r.code == c) with
  | [] => [none]
  | l => l.map some

/-- Balance contributed by an optional matched TB row; NaN→0 via `fillna(0)`
(logic_comparison.py:115-120). -/
def optBal : Option TBRow → ℚ
  | none => 0
  | some r => tb_balance r

/-- Floor of a rational, written with Euclidean integer division (the
denominator is positive, so this is the mathematical floor; kept
division-based so that it evaluates by kernel reduction). -/
def ratFloor (q : ℚ) : ℤ := q.num / q.den

theorem ratFloor_eq_floor (q : ℚ) : ratFloor q = ⌊q⌋ :=
  Rat.floor_def.symm

/-- numpy/pandas `round(0)`: round half to even. -/
def roundHalfEven (q : ℚ) : ℤ :=
  let n := ratFloor q
  let f := q - n
  if f < 1/2 then n
  else if 1/2 < f then n + 1
  else if n % 2 = 0 then n else n + 1

/-- One row of `merged_df` after the fills and the variance computation
(logic_comparison.py:108-123). -/
structure ReconRow where
  code : String
  name : Option String
  opening : ℚ
  movement : ℚ
  closing : ℚ
  variance : ℤ
  deriving DecidableEq

/-- `merged_df`: `all_codes` left-merged with the name map, the prior-TB
summary, the GL summary and the current-TB summary in that order
(logic_comparison.py:108-123).  The GL and name-map sides have unique keys;
the TB merges fan out over every matching TB row. -/
def mergedRows (gl : List GLRow) (pre cur : List TBRow) : List ReconRow :=
  (all_codes gl pre cur).flatMap fun c =>
    (matchesOrNone pre c).flatMap fun p =>
      (matchesOrNone cur c).map fun q =>
        { code := c
          name := name_for pre cur c
          opening := optBal p
          movement := glMovement gl c
          closing := optBal q
          variance := roundHalfEven (optBal p + glMovement gl c - optBal q) }

/-- `perform_roll_forward_test`: keep only rows whose rounded variance
exceeds the fixed 1-unit tolerance (logic_comparison.py:123-134); the
empty-result branch returns an empty frame either way. -/
def perform_roll_forward_test (gl : List GLRow) (pre cur : List TBRow) :
    List ReconRow :=
  (mergedRows gl pre cur).filter (fun r => decide (1 < |r.variance|))

/-- Opening balance looked up per code (`find?` = the unique matching row
when TB codes are distinct). -/
def openingBal (pre : List TBRow) (c : String) : ℚ :=
  optBal (pre.find? (fun r => r.code == c))

/-- Closing balance looked up per code. -/
def closingBal (cur : List TBRow) (c : String) : ℚ :=
  optBal (cur.find? (fun r => r.code == c))

/-- The single merged row produced for code `c` when both TBs have distinct
codes. -/
def rowFor (gl : List GLRow) (pre cur : List TBRow) (c : String) : ReconRow :=
  { code := c
    name := name_for pre cur c
    opening := openingBal pre c
    movement := glMovement gl c
    closing := closingBal cur c
    variance := roundHalfEven (openingBal pre c + glMovement gl c - closingBal cur c) }

theorem filter_eq_find_of_nodup (tb : List TBRow) (c : String)
    (h : (tb.map (·.code)).Nodup) :
    tb.filter (fun r => r.code == c) =
      match tb.find? (fun r => r.code == c) with
      | some r => [r]
      | none => [] := by
  induction tb with
  | nil => rfl
  | cons a t ih =>
    rw [List.map_cons, List.nodup_cons] at h
    by_cases ha : a.code = c
    · have ht : t.filter (fun r => r.code == c) = [] := by
        rw [List.filter_eq_nil_iff]
        intro r hr hrc
        exact h.1 (by
          rw [List.mem_map]
          exact ⟨r, hr, by rw [ha]; simpa using hrc⟩)
      simp [List.filter_cons, List.find?_cons, ha, ht]
    · simp [List.filter_cons, List.find?_cons, ha, ih h.2]

theorem matchesOrNone_of_nodup (tb : List TBRow) (c : String)
    (h : (tb.map (·.code)).Nodup) :
    matchesOrNone tb c = [tb.find? (fun r => r.code == c)] := by
  rw [matchesOrNone, filter_eq_find_of_nodup tb c h]
  cases tb.find? (fun r => r.code == c) <;> rfl

theorem mergedRows_of_nodup (gl : List GLRow) (pre cur : List TBRow)
    (hp : (pre.map (·.code)).Nodup) (hc : (cur.map (·.code)).Nodup) :
    mergedRows gl pre cur = (all_codes gl pre cur).map (rowFor gl pre cur) := by
  rw [mergedRows]
  induction all_codes gl pre cur with
  | nil => rfl
  | cons a l ih =>
    rw [List.flatMap_cons, List.map_cons, ih]
    rw [matchesOrNone_of_nodup pre a hp, matchesOrNone_of_nodup cur a hc]
    rfl

theorem mem_all_codes (gl : List GLRow) (pre cur : List TBRow) (c : String) :
    c ∈ all_codes gl pre cur ↔
      (∃ r ∈ gl, r.code = c) ∨ (∃ r ∈ pre, r.code = c) ∨
        (∃ r ∈ cur, r.code = c) := by
  rw [all_codes, mem_dedupFirst]
  simp only [List.mem_append, gl_codes, mem_dedupFirst, List.mem_map]
  constructor
  · rintro ((⟨r, hr, rfl⟩ | ⟨r, hr, rfl⟩) | ⟨r, hr, rfl⟩)
    · exact Or.inl ⟨r, hr, rfl⟩
    · exact Or.inr (Or.inl ⟨r, hr, rfl⟩)
    · exact Or.inr (Or.inr ⟨r, hr, rfl⟩)
  · rintro (⟨r, hr, rfl⟩ | ⟨r, hr, rfl⟩ | ⟨r, hr, rfl⟩)
    · exact Or.inl (Or.inl ⟨r, hr, rfl⟩)
    · exact Or.inl (Or.inr ⟨r, hr, rfl⟩)
    · exact Or.inr ⟨r, hr, rfl⟩

theorem openingBal_of_not_mem (pre : List TBRow) (c : String)
    (h : ∀ r ∈ pre, r.code ≠ c) : openingBal pre c = 0 := by
  rw [openingBal, List.find?_eq_none.mpr (by intro r hr; simpa using h r hr)]
  rfl

theorem closingBal_of_not_mem (cur : List TBRow) (c : String)
    (h : ∀ r ∈ cur, r.code ≠ c) : closingBal cur c = 0 := by
  rw [closingBal, List.find?_eq_none.mpr (by intro r hr; simpa using h r hr)]
  rfl

theorem glMovement_of_not_mem (gl : List GLRow) (c : String)
    (h : ∀ r ∈ gl, r.code ≠ c) : glMovement gl c = 0 := by
  have hfil : gl.filter (fun r => r.code == c) = [] := by
    rw [List.filter_eq_nil_iff]
    intro r hr hrc
    exact h r hr (by simpa using hrc)
  simp [glMovement, glSumDr, glSumCr, hfil]

theorem roundHalfEven_intCast (n : ℤ) : roundHalfEven (n : ℚ) = n := by
  simp only [roundHalfEven, ratFloor_eq_floor, Int.floor_intCast, sub_self]
  norm_num

theorem roundHalfEven_zero : roundHalfEven 0 = 0 := by
  simpa using roundHalfEven_intCast 0

/-- C1: for TB inputs with one row per account (the accepted TB shape), the
reconciler's output contains a row for an account exactly when the rounded
variance `opening + movement − closing` has absolute value strictly greater
than the fixed tolerance 1; variance exactly 1 is not reported, variance 2
is. -/
theorem c1_tolerance_filter (gl : List GLRow) (pre cur : List TBRow)
    (hp : (pre.map (·.code)).Nodup) (hc : (cur.map (·.code)).Nodup)
    (c : String) :
    (∃ r ∈ perform_roll_forward_test gl pre cur, r.code = c) ↔
      1 < |roundHalfEven (openingBal pre c + glMovement gl c - closingBal cur c)| := by
  rw [perform_roll_forward_test, mergedRows_of_nodup gl pre cur hp hc]
  constructor
  · rintro ⟨r, hr, hcode⟩
    rw [List.mem_filter] at hr
    obtain ⟨hmem, hvar⟩ := hr
    obtain ⟨c', _, rfl⟩ := List.mem_map.mp hmem
    have : c' = c := hcode
    subst this
    exact of_decide_eq_true hvar
  · intro hvar
    have hmention : c ∈ all_codes gl pre cur := by
      by_contra hno
      rw [mem_all_codes] at hno
      push_neg at hno
      obtain ⟨h1, h2, h3⟩ := hno
      rw [openingBal_of_not_mem pre c (by intro r hr; exact h2 r hr),
        closingBal_of_not_mem cur c (by intro r hr; exact h3 r hr),
        glMovement_of_not_mem gl c (by intro r hr; exact h1 r hr)] at hvar
      norm_num [roundHalfEven_zero] at hvar
    refine ⟨rowFor gl pre cur c, ?_, rfl⟩
    rw [List.mem_filter]
    exact ⟨List.mem_map.mpr ⟨c, hmention, rfl⟩, decide_eq_true hvar⟩

/-- A single GL posting of 5 to account 1000, used as concrete test input. -/
def exGLRow : GLRow := { code := "1000", name := "현금", dr := 5, cr := 0 }

theorem c1_tolerance_filter_witness :
    ((([] : List TBRow).map (·.code)).Nodup ∧
      ∃ r ∈ perform_roll_forward_test [exGLRow] [] [], r.code = "1000") :=
  ⟨by simp,
    (c1_tolerance_filter [exGLRow] [] [] (by simp) (by simp) "1000").mpr (by
      have h5 : openingBal [] "1000" + glMovement [exGLRow] "1000" -
          closingBal [] "1000" = ((5 : ℤ) : ℚ) := by
        simp [openingBal, closingBal, glMovement, glSumDr, glSumCr, optBal,
          exGLRow]
      rw [h5, roundHalfEven_intCast]
      norm_num)⟩

/-- C2: the universal key set is the outer union of the account codes of GL,
prior TB and current TB; each mentioned code appears exactly once in it
(membership plus `Nodup`); a quantity whose source does not mention the
account defaults to 0; and every code of the key set yields a merged row
rather than an error. -/
theorem c2_outer_join_completeness (gl : List GLRow) (pre cur : List TBRow) :
    (∀ c, c ∈ all_codes gl pre cur ↔
        (∃ r ∈ gl, r.code = c) ∨ (∃ r ∈ pre, r.code = c) ∨
          (∃ r ∈ cur, r.code = c)) ∧
    (all_codes gl pre cur).Nodup ∧
    (∀ c, (∀ r ∈ pre, r.code ≠ c) → openingBal pre c = 0) ∧
    (∀ c, (∀ r ∈ gl, r.code ≠ c) → glMovement gl c = 0) ∧
    (∀ c, (∀ r ∈ cur, r.code ≠ c) → closingBal cur c = 0) ∧
    (∀ c ∈ all_codes gl pre cur, ∃ r ∈ mergedRows gl pre cur, r.code = c) := by
  refine ⟨mem_all_codes gl pre cur, nodup_dedupFirst _,
    openingBal_of_not_mem pre, glMovement_of_not_mem gl,
    closingBal_of_not_mem cur, ?_⟩
  intro c hcmem
  have hpre : ∃ p, p ∈ matchesOrNone pre c := by
    rw [matchesOrNone]
    cases h : pre.filter (fun r => r.code == c) with
    | nil => exact ⟨none, by simp⟩
    | cons a l => exact ⟨some a, by simp⟩
  have hcur : ∃ q, q ∈ matchesOrNone cur c := by
    rw [matchesOrNone]
    cases h : cur.filter (fun r => r.code == c) with
    | nil => exact ⟨none, by simp⟩
    | cons a l => exact ⟨some a, by simp⟩
  obtain ⟨p, hpmem⟩ := hpre
  obtain ⟨q, hqmem⟩ := hcur
  refine ⟨{ code := c, name := name_for pre cur c,
            opening := optBal p, movement := glMovement gl c,
            closing := optBal q,
            variance := roundHalfEven (optBal p + glMovement gl c - optBal q) },
    ?_, rfl⟩
  rw [mergedRows, List.mem_flatMap]
  exact ⟨c, hcmem, List.mem_flatMap.mpr ⟨p, hpmem,
    List.mem_map.mpr ⟨q, hqmem, rfl⟩⟩⟩

/-- A prior-TB line for account 2000, used as concrete test input. -/
def exTBRow : TBRow := { code := "2000", name := "차입금", dr := 0, cr := 7 }

theorem c2_outer_join_completeness_witness :
    ("2000" ∈ all_codes [exGLRow] [exTBRow] [] ∧ openingBal [] "9999" = 0) :=
  ⟨((c2_outer_join_completeness [exGLRow] [exTBRow] []).1 "2000").mpr
      (Or.inr (Or.inl ⟨exTBRow, List.mem_singleton.mpr rfl, rfl⟩)),
    (c2_outer_join_completeness [] [] []).2.2.1 "9999" (by simp)⟩

theorem mem_mergedRows_name (gl : List GLRow) (pre cur : List TBRow)
    (r : ReconRow) (hr : r ∈ mergedRows gl pre cur) :
    r.name = name_for pre cur r.code := by
  rw [mergedRows, List.mem_flatMap] at hr
  obtain ⟨c, _, hr⟩ := hr
  rw [List.mem_flatMap] at hr
  obtain ⟨p, _, hr⟩ := hr
  rw [List.mem_map] at hr
  obtain ⟨q, _, rfl⟩ := hr
  rfl

/-- The account name C7 predicts: current-TB name, else prior-TB name, else
GL name, else the code itself. -/
def c7_claimed_name (gl : List GLRow) (pre cur : List TBRow) (c : String) :
    String :=
  match cur.find? (fun r => r.code == c) with
  | some r => r.name
  | none =>
    match pre.find? (fun r => r.code == c) with
    | some r => r.name
    | none =>
      match gl.find? (fun r => r.code == c) with
      | some r => r.name
      | none => c

theorem exRow_variance : (rowFor [exGLRow] [] [] "1000").variance = 5 := by
  show roundHalfEven (openingBal [] "1000" + glMovement [exGLRow] "1000" -
    closingBal [] "1000") = 5
  have h5 : openingBal [] "1000" + glMovement [exGLRow] "1000" -
      closingBal [] "1000" = ((5 : ℤ) : ℚ) := by
    simp [openingBal, closingBal, glMovement, glSumDr, glSumCr, optBal, exGLRow]
  rw [h5, roundHalfEven_intCast]

theorem exRow_mem :
    rowFor [exGLRow] [] [] "1000" ∈ perform_roll_forward_test [exGLRow] [] [] := by
  rw [perform_roll_forward_test,
    mergedRows_of_nodup [exGLRow] [] [] (by simp) (by simp), List.mem_filter]
  refine ⟨List.mem_map.mpr ⟨"1000", ?_, rfl⟩, ?_⟩
  · simp [all_codes, gl_codes, dedupFirst, exGLRow]
  · rw [exRow_variance]
    exact decide_eq_true (by norm_num)

/-- C7 counterexample: the reconciler never falls back to the GL's account
name, nor to the code.  For a GL-only account (posting of 5 to account 1000
named 현금, empty prior and current TBs), the reported row carries no name at
all (NaN), not the GL name as the claim requires. -/
theorem c7_counterexample :
    ¬ (∀ (gl : List GLRow) (pre cur : List TBRow),
        ∀ r ∈ perform_roll_forward_test gl pre cur,
          r.name = some (c7_claimed_name gl pre cur r.code)) := by
  intro h
  have := h [exGLRow] [] [] _ exRow_mem
  simp [rowFor, name_for, c7_claimed_name, exGLRow] at this

/-- C7 amended: the displayed account name is the current-TB name when the
current TB mentions the account, else the prior-TB name when the prior TB
mentions it, else missing (`none`); the GL name and the code are never
used. -/
theorem c7_name_fallback (gl : List GLRow) (pre cur : List TBRow)
    (r : ReconRow) (hr : r ∈ perform_roll_forward_test gl pre cur) :
    (∀ t, cur.find? (fun x => x.code == r.code) = some t →
        r.name = some t.name) ∧
    (cur.find? (fun x => x.code == r.code) = none →
      ∀ t, pre.find? (fun x => x.code == r.code) = some t →
        r.name = some t.name) ∧
    (cur.find? (fun x => x.code == r.code) = none →
      pre.find? (fun x => x.code == r.code) = none → r.name = none) := by
  have hname : r.name = name_for pre cur r.code :=
    mem_mergedRows_name gl pre cur r (List.mem_of_mem_filter hr)
  refine ⟨?_, ?_, ?_⟩ <;> intros <;> simp_all [name_for]

theorem c7_name_fallback_witness : (rowFor [exGLRow] [] [] "1000").name = none :=
  (c7_name_fallback [exGLRow] [] [] _ exRow_mem).2.2 rfl rfl

/-! ## Grand-total cross-check

Embeds the total-level portion of `verify` (difference.py:122-182, 374-387).
The GL is the loaded table whose `차변금액`/`대변금액` columns are summed by
`sum_col`; the four TB figures are the already-coerced numeric cells of the
located Total Row (`to_numeric_safe` on `tb.loc[total_row_index, ...]`,
which `verify` has checked to be non-NaN). -/

/-- `TOL = 1  # 허용 오차(원)` (difference.py:22). -/
def TOL : ℚ := 1

/-- The tuple `verify` builds from the grand totals: the overall pass flag
(difference.py:177-182) and the signed deltas of `grand_diffs`
(difference.py:380-386). -/
structure VerifyTotals where
  ok : Bool
  dGL : ℚ
  dTBBal : ℚ
  dTBTot : ℚ
  dGLdTBtotd : ℚ
  dGLcTBtotc : ℚ
  deriving DecidableEq

/-- `sum_col(gl, "차변금액")`. -/
def glTotalDr (gl : List GLRow) : ℚ := (gl.map (·.dr)).sum

/-- `sum_col(gl, "대변금액")`. -/
def glTotalCr (gl : List GLRow) : ℚ := (gl.map (·.cr)).sum

/-- The grand-total check of `verify`: `is_ok_gl_diff`, `is_ok_tb_tot_diff`,
`is_ok_d_match`, `is_ok_c_match` and their conjunction, plus the returned
signed deltas. -/
def verify_grand_totals (gl : List GLRow)
    (tbBalD tbBalC tbTotD tbTotC : ℚ) : VerifyTotals :=
  let glD := glTotalDr gl
  let glC := glTotalCr gl
  { ok := decide (|glD - glC| ≤ TOL) && decide (|tbTotD - tbTotC| ≤ TOL) &&
      decide (|glD - tbTotD| ≤ TOL) && decide (|glC - tbTotC| ≤ TOL)
    dGL := glD - glC
    dTBBal := tbBalD - tbBalC
    dTBTot := tbTotD - tbTotC
    dGLdTBtotd := glD - tbTotD
    dGLcTBtotc := glC - tbTotC }

/-- C3: the grand-total cross-check passes iff all four pairwise deltas
(GL debit vs GL credit, TB declared debit vs credit totals, GL debit vs TB
declared debit, GL credit vs TB declared credit) are within the fixed
tolerance 1 in absolute value, so one mismatch beyond tolerance fails the
whole check; the four signed deltas are returned alongside the flag. -/
theorem c3_grand_total_check (gl : List GLRow)
    (tbBalD tbBalC tbTotD tbTotC : ℚ) :
    ((verify_grand_totals gl tbBalD tbBalC tbTotD tbTotC).ok = true ↔
      (|glTotalDr gl - glTotalCr gl| ≤ 1 ∧ |tbTotD - tbTotC| ≤ 1 ∧
       |glTotalDr gl - tbTotD| ≤ 1 ∧ |glTotalCr gl - tbTotC| ≤ 1)) ∧
    (verify_grand_totals gl tbBalD tbBalC tbTotD tbTotC).dGL =
      glTotalDr gl - glTotalCr gl ∧
    (verify_grand_totals gl tbBalD tbBalC tbTotD tbTotC).dTBTot =
      tbTotD - tbTotC ∧
    (verify_grand_totals gl tbBalD tbBalC tbTotD tbTotC).dGLdTBtotd =
      glTotalDr gl - tbTotD ∧
    (verify_grand_totals gl tbBalD tbBalC tbTotD tbTotC).dGLcTBtotc =
      glTotalCr gl - tbTotC := by
  refine ⟨?_, rfl, rfl, rfl, rfl⟩
  simp [verify_grand_totals, TOL, and_assoc]

/-! ## SAP-style signed single-column split

Embeds logic_jet.py:55-60: when the loaded GL has a `차변금액` column but no
`대변금액` column and the debit column is numeric, the credit column is
fabricated first from the original signed values and the debit column is then
clipped — both lambdas read the ORIGINAL value `x`:

    df['대변금액'] = df['차변금액'].apply(lambda x: abs(x) if x < 0 else 0)
    df['차변금액'] = df['차변금액'].apply(lambda x: x if x > 0 else 0)
-/

/-- The (debit, credit) pair produced from one original signed value. -/
def split_signed_amount (x : ℚ) : ℚ × ℚ :=
  (if 0 < x then x else 0, if x < 0 then |x| else 0)

/-- The elementwise column rewrite. -/
def split_signed_column (xs : List ℚ) : List (ℚ × ℚ) :=
  xs.map split_signed_amount

/-- C8: for every original signed value `x`, the split debit and credit are
both non-negative and `debit − credit = x`. -/
theorem c8_signed_split (x : ℚ) :
    0 ≤ (split_signed_amount x).1 ∧ 0 ≤ (split_signed_amount x).2 ∧
      (split_signed_amount x).1 - (split_signed_amount x).2 = x := by
  rw [split_signed_amount]
  rcases lt_trichotomy x 0 with h | h | h
  · rw [if_neg (by linarith), if_pos h, abs_of_neg h]
    exact ⟨le_refl 0, show (0:ℚ) ≤ -x by linarith, show (0:ℚ) - -x = x by ring⟩
  · subst h
    norm_num
  · rw [if_pos h, if_neg (by linarith)]
    exact ⟨le_of_lt h, le_refl 0, show x - (0:ℚ) = x by ring⟩

/-! ## JET rule battery

Embeds the scenario filters of logic_jet.py:90-148 and
journal_entry_test.py:102-204.  A ledger row carries the standardized
columns; dates are epoch-day integers with `none` for NaT.  logic_jet's
rules guard on column presence (`'적요' not in df.columns` etc.), modelled by
presence flags on `JTable`; journal_entry_test's `load_gl` validates all its
essential columns up front, so its scenario functions take the bare row
list. -/

/-- One ledger posting line after JET loading. -/
structure JRow where
  docDate : Option ℤ
  entryDate : Option ℤ
  docNo : String
  code : String
  name : String
  dr : ℚ
  cr : ℚ
  desc : String
  user : String
  deriving DecidableEq

/-- A loaded ledger table with the presence flags of the optional columns
(`계정과목`, `적요`, `입력사원`, `입력일자`) plus the columns logic_jet's rules
re-check defensively (`전표일자`, `전표번호`, `계정코드`). -/
structure JTable where
  rows : List JRow
  hasName : Bool
  hasDesc : Bool
  hasUser : Bool
  hasEntryDate : Bool
  hasDocDate : Bool
  hasDocNo : Bool
  hasCode : Bool
  deriving DecidableEq

/-- Case-sensitive literal substring test (pandas `str.contains` with the
`re.escape`d pattern). -/
def containsSub (s pat : String) : Bool :=
  decide (pat.toList <:+: s.toList)

/-- Case-insensitive keyword alternation (`str.contains(pattern, case=False,
na=False)` with `pattern = "|".join(map(re.escape, keywords))`). -/
def containsKeywordCI (s : String) (ks : List String) : Bool :=
  ks.any (fun k => containsSub s.toLower k.toLower)

/-- pandas `Timestamp.weekday()`: Monday = 0; day 0 (1970-01-01) was a
Thursday. -/
def weekday (d : ℤ) : ℤ := (d + 3) % 7

/-- Truncation toward zero, as Python `int(...)` / pandas `astype(int)` on a
float. -/
def truncQ (v : ℚ) : ℤ := if 0 ≤ v then ⌊v⌋ else ⌈v⌉

/-- Float `v % factor == 0` for a positive factor: `v` is an exact integer
multiple of `factor`, i.e. `v / factor` has denominator 1. -/
def isExactMultiple (v factor : ℚ) : Bool := (v / factor).den == 1

/-- `str(int(abs(val)))` ends in the same digit repeated `n` times
(`re.compile(rf"(\d)\1{{n-1}}$")`, anchored at the end; a shorter numeral
cannot match).  `Nat.digits` is little-endian, so the trailing digits are the
first `n` entries. -/
def hasTrailingRepeat (v : ℚ) (n : ℕ) : Bool :=
  if v == 0 then false
  else
    let ds := Nat.digits 10 (⌊|v|⌋).toNat
    decide (n ≤ ds.length) && (ds.take n).all (fun d => d == ds.headD 0)

/-- `s1_keyword_search` (logic_jet.py:90-95). -/
def s1_keyword_search (df : JTable) (keywords : List String) : List JRow :=
  if keywords.isEmpty || !df.hasDesc then []
  else df.rows.filter (fun r => containsKeywordCI r.desc keywords)

/-- `s2_backdated_entries` (logic_jet.py:97-103): dropna on both date
columns, then `지연일수 = 입력일자 - 전표일자` strictly above the threshold (the
derived delay column also lands in the output frame; the original fields are
untouched). -/
def s2_backdated_entries (df : JTable) (threshold_days : ℤ) : List JRow :=
  if !df.hasEntryDate || !df.hasDocDate then []
  else df.rows.filter (fun r =>
    match r.entryDate, r.docDate with
    | some e, some d => decide (threshold_days < e - d)
    | _, _ => false)

/-- `s3_rare_accounts` (logic_jet.py:105-109): `value_counts` of the full
table, keep rows whose code occurs fewer than `threshold` times. -/
def s3_rare_accounts (df : JTable) (threshold : ℤ) : List JRow :=
  if !df.hasCode then []
  else df.rows.filter (fun r =>
    decide ((df.rows.countP (fun x => x.code == r.code) : ℤ) < threshold))

/-- `s4_rare_users` (logic_jet.py:111-115). -/
def s4_rare_users (df : JTable) (threshold : ℤ) : List JRow :=
  if !df.hasUser then []
  else df.rows.filter (fun r =>
    decide ((df.rows.countP (fun x => x.user == r.user) : ℤ) < threshold))

/-- `s5_weekend_holiday` (logic_jet.py:117-121): dropna on the posting date,
keep Saturday/Sunday postings. -/
def s5_weekend_holiday (df : JTable) : List JRow :=
  if !df.hasDocDate then []
  else df.rows.filter (fun r =>
    match r.docDate with
    | some d => decide (5 ≤ weekday d)
    | none => false)

/-- `s6_round_numbers` (logic_jet.py:123-128): the raw amount modulo
`10 ** zero_digits` must be exactly 0 (no truncation to the integer part
here, unlike journal_entry_test.py's scenario8) and the amount non-zero. -/
def s6_round_numbers (df : JTable) (zero_digits : ℤ) : List JRow :=
  if zero_digits < 1 then []
  else
    let factor : ℚ := (10 : ℚ) ^ zero_digits.toNat
    df.rows.filter (fun r =>
      (isExactMultiple r.dr factor && !(r.dr == 0)) ||
      (isExactMultiple r.cr factor && !(r.cr == 0)))

/-- The fixed allowed-contra set of `s7_abnormal_combo_sales`. -/
def s7_allowed : List String :=
  ["현금", "당좌예금", "보통예금", "외상매출금", "받을어음", "미수금", "선수금", "부가세예수금"]

/-- Whether one document (journal entry) is abnormal per
`s7_abnormal_combo_sales`: it touches a 매출 account and its non-매출
contra-account set is not contained in the allowed set. -/
def jnAbnormal (rows : List JRow) (jn : String) : Bool :=
  let g := rows.filter (fun r => r.docNo == jn)
  g.any (fun r => containsSub r.name "매출") &&
    !(((g.map (·.name)).filter (fun n => !containsSub n "매출")).all
      (fun n => s7_allowed.contains n))

/-- `s7_abnormal_combo_sales` (logic_jet.py:130-148).  The source emits the
qualifying documents group by group (sorted by document number); the same
rows are produced here in original order, which the membership properties
proved below do not distinguish. -/
def s7_abnormal_combo_sales (df : JTable) : List JRow :=
  if !df.hasName || !df.hasDocNo then []
  else if df.rows.all (fun r => !containsSub r.name "매출") then []
  else df.rows.filter (fun r => jnAbnormal df.rows r.docNo)

/-- `scenario1_keyword` (journal_entry_test.py:102-106): keyword search over
`계정과목`. -/
def scenario1_keyword (rows : List JRow) (keywords : List String) :
    List JRow :=
  if keywords.isEmpty then []
  else rows.filter (fun r => containsKeywordCI r.name keywords)

/-- `scenario2_account_code` (journal_entry_test.py:108-111). -/
def scenario2_account_code (rows : List JRow) (codes : List String) :
    List JRow :=
  if codes.isEmpty then []
  else rows.filter (fun r => codes.contains r.code)

/-- The allowed contra set of `scenario3_abnormal_sales` (no 부가세예수금,
unlike `s7_allowed`). -/
def scenario3_allowed : List String :=
  ["현금", "당좌예금", "보통예금", "외상매출금", "받을어음", "미수금", "선수금"]

/-- `계정과목` matches the revenue pattern `제품매출|상품매출`. -/
def isSalesName (n : String) : Bool :=
  containsSub n "제품매출" || containsSub n "상품매출"

/-- Whether one document is abnormal per `scenario3_abnormal_sales`: it has
a sales line, and either a sales line carries an abnormal sign (debit
positive or credit negative) or its non-empty contra set is not contained in
the allowed set (an entry with no contra-accounts is treated as normal by
the contra check). -/
def scenario3Abnormal (rows : List JRow) (jn : String) : Bool :=
  let g := rows.filter (fun r => r.docNo == jn)
  g.any (fun r => isSalesName r.name) &&
    (g.any (fun r => isSalesName r.name &&
        (decide (0 < r.dr) || decide (r.cr < 0))) ||
      (let others := (g.map (·.name)).filter (fun n => !isSalesName n)
       !others.isEmpty &&
         !(others.all (fun n => scenario3_allowed.contains n))))

/-- `scenario3_abnormal_sales` (journal_entry_test.py:113-126).  The source
concatenates the qualifying document groups (iterated in sorted document
order); the same rows are produced here in original order. -/
def scenario3_abnormal_sales (rows : List JRow) : List JRow :=
  rows.filter (fun r => scenario3Abnormal rows r.docNo)

/-- `_apply_period` (journal_entry_test.py:128-132): inclusive bounds; a NaT
posting date compares False against a supplied bound and is dropped. -/
def apply_period (rows : List JRow) (start fin : Option ℤ) : List JRow :=
  let r1 := match start with
    | some v => rows.filter (fun r =>
        match r.docDate with
        | some d => decide (v ≤ d)
        | none => false)
    | none => rows
  match fin with
  | some v => r1.filter (fun r =>
      match r.docDate with
      | some d => decide (d ≤ v)
      | none => false)
  | none => r1

/-- `scenario4_rare_accounts` (journal_entry_test.py:134-140): None
threshold disables the rule; counts are taken within the period window. -/
def scenario4_rare_accounts (rows : List JRow) (start fin : Option ℤ)
    (threshold : Option ℤ) : List JRow :=
  match threshold with
  | none => []
  | some t =>
    let sub := apply_period rows start fin
    if sub.isEmpty then []
    else sub.filter (fun r =>
      decide ((sub.countP (fun x => x.code == r.code) : ℤ) < t))

/-- `scenario5_rare_users` (journal_entry_test.py:142-148). -/
def scenario5_rare_users (rows : List JRow) (start fin : Option ℤ)
    (threshold : Option ℤ) : List JRow :=
  match threshold with
  | none => []
  | some t =>
    let sub := apply_period rows start fin
    if sub.isEmpty then []
    else sub.filter (fun r =>
      decide ((sub.countP (fun x => x.user == r.user) : ℤ) < t))

/-- `scenario6_weekend_holiday` (journal_entry_test.py:150-187): rows with a
parseable posting date falling on Sat/Sun or in the loaded holiday set.  The
holiday-file parsing is external I/O; the set of successfully parsed,
normalized holiday dates is taken as the input (an empty set leaves the
weekend mask alone, which coincides with empty-set membership). -/
def scenario6_weekend_holiday (rows : List JRow) (holidays : List ℤ) :
    List JRow :=
  rows.filter (fun r =>
    match r.docDate with
    | some d => decide (5 ≤ weekday d) || holidays.contains d
    | none => false)

/-- `scenario7_repeating_digits` (journal_entry_test.py:189-197). -/
def scenario7_repeating_digits (rows : List JRow) (repeat_len : Option ℤ) :
    List JRow :=
  match repeat_len with
  | none => []
  | some n =>
    if n < 2 then []
    else rows.filter (fun r =>
      hasTrailingRepeat r.dr n.toNat || hasTrailingRepeat r.cr n.toNat)

/-- `scenario8_round_numbers` (journal_entry_test.py:199-204): the amount is
truncated to its integer part (`astype(int)`) before the modulo test; the
zero-exclusion compares the original amount. -/
def scenario8_round_numbers (rows : List JRow) (zero_digits : Option ℤ) :
    List JRow :=
  match zero_digits with
  | none => []
  | some k =>
    if k < 1 then []
    else
      let factor : ℤ := 10 ^ k.toNat
      rows.filter (fun r =>
        (truncQ r.dr % factor == 0 && !(r.dr == 0)) ||
        (truncQ r.cr % factor == 0 && !(r.cr == 0)))

theorem apply_period_subset (rows : List JRow) (start fin : Option ℤ)
    (r : JRow) (h : r ∈ apply_period rows start fin) : r ∈ rows := by
  rcases start with _ | v <;> rcases fin with _ | w <;>
    simp only [apply_period] at h
  · exact h
  · exact (List.mem_filter.mp h).1
  · exact (List.mem_filter.mp h).1
  · exact (List.mem_filter.mp (List.mem_filter.mp h).1).1

/-- C9: every JET rule returns a subset of the rows of its input table —
each output row is one of the input rows with its original field values; no
rule fabricates rows (and, all functions being pure, none mutates its
input). -/
theorem c9_rules_return_subsets :
    (∀ df kws r, r ∈ s1_keyword_search df kws → r ∈ df.rows) ∧
    (∀ df t r, r ∈ s2_backdated_entries df t → r ∈ df.rows) ∧
    (∀ df t r, r ∈ s3_rare_accounts df t → r ∈ df.rows) ∧
    (∀ df t r, r ∈ s4_rare_users df t → r ∈ df.rows) ∧
    (∀ df r, r ∈ s5_weekend_holiday df → r ∈ df.rows) ∧
    (∀ df k r, r ∈ s6_round_numbers df k → r ∈ df.rows) ∧
    (∀ df r, r ∈ s7_abnormal_combo_sales df → r ∈ df.rows) ∧
    (∀ rows kws r, r ∈ scenario1_keyword rows kws → r ∈ rows) ∧
    (∀ rows cs r, r ∈ scenario2_account_code rows cs → r ∈ rows) ∧
    (∀ rows r, r ∈ scenario3_abnormal_sales rows → r ∈ rows) ∧
    (∀ rows s e t r, r ∈ scenario4_rare_accounts rows s e t → r ∈ rows) ∧
    (∀ rows s e t r, r ∈ scenario5_rare_users rows s e t → r ∈ rows) ∧
    (∀ rows hs r, r ∈ scenario6_weekend_holiday rows hs → r ∈ rows) ∧
    (∀ rows n r, r ∈ scenario7_repeating_digits rows n → r ∈ rows) ∧
    (∀ rows k r, r ∈ scenario8_round_numbers rows k → r ∈ rows) := by
  refine ⟨?_, ?_, ?_, ?_, ?_, ?_, ?_, ?_, ?_, ?_, ?_, ?_, ?_, ?_, ?_⟩
  · intro df kws r h
    rw [s1_keyword_search] at h
    split at h
    · simp at h
    · exact (List.mem_filter.mp h).1
  · intro df t r h
    rw [s2_backdated_entries] at h
    split at h
    · simp at h
    · exact (List.mem_filter.mp h).1
  · intro df t r h
    rw [s3_rare_accounts] at h
    split at h
    · simp at h
    · exact (List.mem_filter.mp h).1
  · intro df t r h
    rw [s4_rare_users] at h
    split at h
    · simp at h
    · exact (List.mem_filter.mp h).1
  · intro df r h
    rw [s5_weekend_holiday] at h
    split at h
    · simp at h
    · exact (List.mem_filter.mp h).1
  · intro df k r h
    rw [s6_round_numbers] at h
    split at h
    · simp at h
    · exact (List.mem_filter.mp h).1
  · intro df r h
    rw [s7_abnormal_combo_sales] at h
    split at h
    · simp at h
    · split at h
      · simp at h
      · exact (List.mem_filter.mp h).1
  · intro rows kws r h
    rw [scenario1_keyword] at h
    split at h
    · simp at h
    · exact (List.mem_filter.mp h).1
  · intro rows cs r h
    rw [scenario2_account_code] at h
    split at h
    · simp at h
    · exact (List.mem_filter.mp h).1
  · intro rows r h
    exact (List.mem_filter.mp h).1
  · intro rows s e t r h
    rw [scenario4_rare_accounts.eq_def] at h
    split at h
    · simp at h
    · dsimp only at h
      split at h
      · simp at h
      · exact apply_period_subset rows s e r (List.mem_filter.mp h).1
  · intro rows s e t r h
    rw [scenario5_rare_users.eq_def] at h
    split at h
    · simp at h
    · dsimp only at h
      split at h
      · simp at h
      · exact apply_period_subset rows s e r (List.mem_filter.mp h).1
  · intro rows hs r h
    exact (List.mem_filter.mp h).1
  · intro rows n r h
    rw [scenario7_repeating_digits.eq_def] at h
    split at h
    · simp at h
    · split at h
      · simp at h
      · exact (List.mem_filter.mp h).1
  · intro rows k r h
    rw [scenario8_round_numbers.eq_def] at h
    split at h
    · simp at h
    · split at h
      · simp at h
      · exact (List.mem_filter.mp h).1

/-- A neutral ledger row used as concrete test input. -/
def exJRow : JRow :=
  { docDate := none, entryDate := none, docNo := "1", code := "1000",
    name := "현금", dr := 0, cr := 0, desc := "", user := "" }

theorem c9_rules_return_subsets_witness : exJRow ∈ [exJRow] :=
  c9_rules_return_subsets.2.2.2.2.2.2.2.2.1 [exJRow] ["1000"] exJRow
    (by decide)

/-- A table whose `계정코드` column is missing. -/
def exTableNoCode : JTable :=
  { rows := [exJRow], hasName := true, hasDesc := true, hasUser := true,
    hasEntryDate := true, hasDocDate := true, hasDocNo := true,
    hasCode := false }

/-- C5: a JET rule invoked with a disabled parameter (empty keyword list,
missing/None threshold, `zero_digits`/`repeat_len` below their minimum) or on
a table lacking the rule's optional column returns an empty result set; being
total functions, the rules do not raise.  In particular the rare-accounts and
rare-preparers rules with a None threshold return an empty set. -/
theorem c5_disabled_rules :
    (∀ (df : JTable) kws, kws = [] ∨ df.hasDesc = false →
        s1_keyword_search df kws = []) ∧
    (∀ (df : JTable) t, df.hasEntryDate = false ∨ df.hasDocDate = false →
        s2_backdated_entries df t = []) ∧
    (∀ (df : JTable) t, df.hasCode = false → s3_rare_accounts df t = []) ∧
    (∀ (df : JTable) t, df.hasUser = false → s4_rare_users df t = []) ∧
    (∀ df : JTable, df.hasDocDate = false → s5_weekend_holiday df = []) ∧
    (∀ (df : JTable) k, k < 1 → s6_round_numbers df k = []) ∧
    (∀ df : JTable, df.hasName = false ∨ df.hasDocNo = false →
        s7_abnormal_combo_sales df = []) ∧
    (∀ rows s e, scenario4_rare_accounts rows s e none = []) ∧
    (∀ rows s e, scenario5_rare_users rows s e none = []) ∧
    (∀ rows, scenario7_repeating_digits rows none = []) ∧
    (∀ rows, scenario8_round_numbers rows none = []) ∧
    (∀ rows, scenario1_keyword rows [] = []) ∧
    (∀ rows, scenario2_account_code rows [] = []) ∧
    (∀ rows n, n < 2 → scenario7_repeating_digits rows (some n) = []) ∧
    (∀ rows k, k < 1 → scenario8_round_numbers rows (some k) = []) := by
  refine ⟨?_, ?_, ?_, ?_, ?_, ?_, ?_, ?_, ?_, ?_, ?_, ?_, ?_, ?_, ?_⟩
  · intro df kws h
    rcases h with rfl | h <;> simp [s1_keyword_search, *]
  · intro df t h
    rcases h with h | h <;> simp [s2_backdated_entries, h]
  · intro df t h
    simp [s3_rare_accounts, h]
  · intro df t h
    simp [s4_rare_users, h]
  · intro df h
    simp [s5_weekend_holiday, h]
  · intro df k h
    rw [s6_round_numbers, if_pos h]
  · intro df h
    rcases h with h | h <;> simp [s7_abnormal_combo_sales, h]
  · intro rows s e
    rfl
  · intro rows s e
    rfl
  · intro rows
    rfl
  · intro rows
    rfl
  · intro rows
    simp [scenario1_keyword]
  · intro rows
    simp [scenario2_account_code]
  · intro rows n h
    simp [scenario7_repeating_digits, h]
  · intro rows k h
    simp [scenario8_round_numbers, h]

theorem c5_disabled_rules_witness :
    (s3_rare_accounts exTableNoCode 5 = [] ∧
      scenario4_rare_accounts [exJRow] none none none = []) :=
  ⟨c5_disabled_rules.2.2.1 exTableNoCode 5 rfl,
    c5_disabled_rules.2.2.2.2.2.2.2.1 [exJRow] none none⟩

theorem truncQ_intCast (n : ℤ) : truncQ (n : ℚ) = n := by
  rw [truncQ]
  split
  · exact Int.floor_intCast n
  · exact Int.ceil_intCast n

theorem isExactMultiple_iff (v f : ℚ) (hf : f ≠ 0) :
    isExactMultiple v f = true ↔ ∃ m : ℤ, v = m * f := by
  rw [isExactMultiple, beq_iff_eq]
  constructor
  · intro h
    have hq : ((v / f).num : ℚ) = v / f := by
      conv_rhs => rw [← Rat.num_div_den (v / f)]
      rw [h]
      norm_num
    exact ⟨(v / f).num, ((eq_div_iff hf).mp hq).symm⟩
  · rintro ⟨m, rfl⟩
    rw [mul_div_assoc, div_self hf, mul_one]
    exact Rat.den_intCast m

/-- The predicate C6 asserts for the round-number rules: integer part of
debit or credit divisible by `10^k`, amount non-zero. -/
def c6_claimed_flag (k : ℤ) (r : JRow) : Prop :=
  (((10:ℤ) ^ k.toNat ∣ truncQ r.dr) ∧ r.dr ≠ 0) ∨
    (((10:ℤ) ^ k.toNat ∣ truncQ r.cr) ∧ r.cr ≠ 0)

/-- A ledger row with a fractional debit amount 5000.5. -/
def exHalfRow : JRow :=
  { docDate := none, entryDate := none, docNo := "1", code := "1000",
    name := "현금", dr := 10001/2, cr := 0, desc := "", user := "" }

/-- A one-row table holding `exHalfRow`, with every column present. -/
def exHalfTable : JTable :=
  { rows := [exHalfRow], hasName := true, hasDesc := true, hasUser := true,
    hasEntryDate := true, hasDocDate := true, hasDocNo := true,
    hasCode := true }

/-- C6 counterexample: `s6_round_numbers` (logic_jet.py) does not implement
the claimed integer-part test.  For the amount 5000.5 with `zero_digits = 3`
the claim's predicate holds (integer part 5000 is divisible by 1000 and the
amount is non-zero) but s6 leaves the row unflagged, since the raw amount
modulo 1000 is 0.5, not 0. -/
theorem c6_counterexample :
    ¬ (∀ (df : JTable) (k : ℤ), 1 ≤ k → ∀ r : JRow,
        (r ∈ s6_round_numbers df k ↔ r ∈ df.rows ∧ c6_claimed_flag k r)) := by
  intro h
  have htr : truncQ ((10001:ℚ)/2) = 5000 := by
    rw [truncQ, if_pos (by norm_num), Int.floor_eq_iff]
    norm_num
  have hdvd : (10:ℤ) ^ (3:ℤ).toNat ∣ truncQ exHalfRow.dr := by
    have h3 : ((3:ℤ).toNat) = 3 := rfl
    rw [h3, show exHalfRow.dr = (10001:ℚ)/2 from rfl, htr]
    norm_num
  have hmem := (h exHalfTable 3 (by norm_num) exHalfRow).mpr
    ⟨by simp [exHalfTable], Or.inl ⟨hdvd, by norm_num [exHalfRow]⟩⟩
  have hnm : ¬ ∃ m : ℤ, (10001:ℚ)/2 = m * (10:ℚ) ^ (3:ℤ).toNat := by
    rintro ⟨m, hm⟩
    rw [show ((10:ℚ) ^ (3:ℤ).toNat) = 1000 by
      rw [show ((3:ℤ).toNat) = 3 from rfl]; norm_num] at hm
    have h2 : (10001:ℚ) = m * 2000 := by linarith
    have h3 : (10001:ℤ) = m * 2000 := by exact_mod_cast h2
    omega
  have hfalse :
      isExactMultiple ((10001:ℚ)/2) ((10:ℚ) ^ (3:ℤ).toNat) = false := by
    rw [Bool.eq_false_iff]
    intro htru
    exact hnm ((isExactMultiple_iff _ _ (by positivity)).mp htru)
  rw [s6_round_numbers, if_neg (by norm_num)] at hmem
  dsimp only at hmem
  rw [List.mem_filter] at hmem
  have hpred := hmem.2
  rw [show exHalfRow.dr = (10001:ℚ)/2 from rfl,
    show exHalfRow.cr = (0:ℚ) from rfl, hfalse] at hpred
  simp at hpred

/-- C6 amended: `scenario8_round_numbers` (journal_entry_test.py) flags
exactly the rows whose truncated integer part of debit or credit is
divisible by `10^k` with the amount non-zero, as the claim states; but
`s6_round_numbers` (logic_jet.py) flags exactly the rows whose raw amount is
itself an exact integer multiple of `10^k` (non-zero) — the two agree on
whole-unit amounts (5000 flagged at k=3, 5050 not, 0 never) but differ on
fractional ones. -/
theorem c6_round_number_rules (rows : List JRow) (df : JTable) (k : ℤ)
    (hk : 1 ≤ k) (r : JRow) :
    (r ∈ scenario8_round_numbers rows (some k) ↔
      r ∈ rows ∧ c6_claimed_flag k r) ∧
    (r ∈ s6_round_numbers df k ↔ r ∈ df.rows ∧
      (((∃ m : ℤ, r.dr = m * (10:ℚ) ^ k.toNat) ∧ r.dr ≠ 0) ∨
       ((∃ m : ℤ, r.cr = m * (10:ℚ) ^ k.toNat) ∧ r.cr ≠ 0))) := by
  have hfact : ((10:ℚ) ^ k.toNat) ≠ 0 := by positivity
  constructor
  · rw [scenario8_round_numbers, if_neg (by omega)]
    dsimp only
    rw [List.mem_filter]
    simp only [Bool.or_eq_true, Bool.and_eq_true, beq_iff_eq,
      Bool.not_eq_true', beq_eq_false_iff_ne, c6_claimed_flag,
      Int.dvd_iff_emod_eq_zero]
  · rw [s6_round_numbers, if_neg (by omega)]
    dsimp only
    rw [List.mem_filter]
    simp only [Bool.or_eq_true, Bool.and_eq_true, Bool.not_eq_true',
      beq_eq_false_iff_ne, isExactMultiple_iff r.dr _ hfact,
      isExactMultiple_iff r.cr _ hfact]

/-- A ledger row with a round debit amount 5000. -/
def ex5000Row : JRow :=
  { docDate := none, entryDate := none, docNo := "1", code := "1000",
    name := "현금", dr := 5000, cr := 0, desc := "", user := "" }

theorem c6_round_number_rules_witness :
    ((1:ℤ) ≤ 3 ∧ ex5000Row ∈ scenario8_round_numbers [ex5000Row] (some 3)) :=
  ⟨by norm_num,
    (c6_round_number_rules [ex5000Row] exHalfTable 3 (by norm_num)
        ex5000Row).1.mpr
      ⟨List.mem_singleton.mpr rfl, Or.inl ⟨by
        have h1 : ex5000Row.dr = ((5000:ℤ):ℚ) := by norm_num [ex5000Row]
        rw [h1, truncQ_intCast, show ((3:ℤ).toNat) = 3 from rfl]
        norm_num, by norm_num [ex5000Row]⟩⟩⟩

end Auditing
